import Mathlib

/-
Verification of slper (src/slper/slimfile.py): a shallow embedding of the
two SLiM output parsers (ragged and dense), the parameter-header parser and
the output-filename helper, with theorems checking the specification.

Modelling conventions:
- Python strings are `List Char`; an input file is a `List (List Char)` of
  lines without their trailing newline characters.  (The only place the
  source reads a raw line without stripping is the header line passed to
  parse_params; a trailing newline there is absorbed by float() whitespace
  tolerance or retained inside a text value, and none of the checked
  properties depend on it.)
- Python floats are modelled as rationals; the inputs under test carry
  short decimal literals, which IEEE doubles and rationals order and
  compare identically for the structural properties proved here.
  float() special forms (inf, nan, underscores) are not modelled; none of
  the claims involves them.
- Python dicts are insertion-ordered association lists; assignment to an
  existing key updates the value in place (pyDictSet), as in CPython.
- CPython iterates set(row) in an unspecified order; for the small
  non-negative generation offsets this code produces, and under the
  documented precondition that generations are non-decreasing, the
  first-appearance order of the distinct offsets is ascending and agrees
  with CPython iteration for small ints.  set(row) is modelled by
  dedupFirst, deduplication keeping first appearances.
- Fallible Python code returns Except PyErr; each PyErr constructor names
  the Python exception class raised at that point.
-/

/-- Python exception classes raised by slimfile.py code paths. -/
inductive PyErr where
  | stopIteration
  | valueError (msg : String)
  | indexError (msg : String)
  | keyError
  | typeError (msg : String)
  | assertionError
  deriving DecidableEq, Repr

/-- Value of one parameter: text for alphabetic keys, float otherwise. -/
inductive PyVal where
  | str (s : List Char)
  | num (q : ℚ)
  deriving DecidableEq, Repr

instance {ε α : Type} [DecidableEq ε] [DecidableEq α] : DecidableEq (Except ε α) := fun
  | .ok a, .ok b =>
    if h : a = b then .isTrue (by rw [h]) else .isFalse (fun he => by cases he; exact h rfl)
  | .ok _, .error _ => .isFalse (fun he => by cases he)
  | .error _, .ok _ => .isFalse (fun he => by cases he)
  | .error e, .error f =>
    if h : e = f then .isTrue (by rw [h]) else .isFalse (fun he => by cases he; exact h rfl)

/-- True when an Except value carries a result, false on an error. -/
def exceptIsOk {ε α : Type} : Except ε α → Bool
  | .ok _ => true
  | .error _ => false

/-- List.mapM specialised to Except, via plain structural recursion. -/
def mapME {α β : Type} (f : α → Except PyErr β) : List α → Except PyErr (List β)
  | [] => .ok []
  | a :: as =>
    match f a with
    | .error e => .error e
    | .ok b =>
      match mapME f as with
      | .error e => .error e
      | .ok bs => .ok (b :: bs)

/-- List.foldlM specialised to Except, via plain structural recursion;
this is the shape of a Python for-loop whose body may raise. -/
def foldlME {σ α : Type} (f : σ → α → Except PyErr σ) : σ → List α → Except PyErr σ
  | s, [] => .ok s
  | s, a :: as =>
    match f s a with
    | .error e => .error e
    | .ok s2 => foldlME f s2 as

/-- Python sequence indexing that raises IndexError when out of range. -/
def pyIndex {α : Type} (l : List α) (i : Nat) : Except PyErr α :=
  match l.get? i with
  | some a => .ok a
  | none => .error (.indexError "list index out of range")

/-- Python str.split(sep) with a one-character separator: keeps empty
fields, and the empty string splits to one empty field. -/
def splitOnChar (c : Char) : List Char → List (List Char)
  | [] => [[]]
  | x :: xs =>
    match splitOnChar c xs with
    | g :: gs => if x = c then [] :: g :: gs else (x :: g) :: gs
    | [] => if x = c then [[], []] else [[x]]

/-- Python str.strip(): drop whitespace from both ends. -/
def pyStrip (s : List Char) : List Char :=
  ((s.dropWhile Char.isWhitespace).reverse.dropWhile Char.isWhitespace).reverse

/-- Python str.isalpha(): nonempty and every character alphabetic. -/
def pyIsAlpha (s : List Char) : Bool :=
  !s.isEmpty && s.all Char.isAlpha

/-- Python str.startswith for a one-character needle. -/
def pyStartsWith (c : Char) : List Char → Bool
  | [] => false
  | x :: _ => x = c

/-- Digits of a decimal literal evaluated to a natural number. -/
def digitsToNat (s : List Char) : Nat :=
  s.foldl (fun n c => 10 * n + (c.toNat - 48)) 0

/-- Leading sign of a numeric literal: the sign as an integer and the
remaining characters. -/
def pySign : List Char → Int × List Char
  | '+' :: r => (1, r)
  | '-' :: r => (-1, r)
  | r => (1, r)

/-- Python int(str): optional surrounding whitespace, optional sign, a
nonempty run of decimal digits (digit-group underscores are not modelled;
no input under test uses them). -/
def pyInt (s : List Char) : Except PyErr Int :=
  let sd := pySign (pyStrip s)
  if sd.2 ≠ [] ∧ sd.2.all Char.isDigit then
    .ok (sd.1 * (digitsToNat sd.2 : Int))
  else
    .error (.valueError "invalid literal for int")

/-- Mantissa of a float literal: digits with at most one decimal point,
at least one digit overall. -/
def parseMantissa (t : List Char) : Option ℚ :=
  match splitOnChar '.' t with
  | [d] =>
    if d ≠ [] ∧ d.all Char.isDigit then some (digitsToNat d : ℚ) else none
  | [d1, d2] =>
    if (d1 ++ d2) ≠ [] ∧ d1.all Char.isDigit ∧ d2.all Char.isDigit then
      some ((digitsToNat d1 : ℚ) + (digitsToNat d2 : ℚ) / (10 : ℚ) ^ d2.length)
    else none
  | _ => none

/-- Split a float literal at the first exponent marker e or E. -/
def splitExponent : List Char → List Char × Option (List Char)
  | [] => ([], none)
  | x :: xs =>
    if x = 'e' ∨ x = 'E' then ([], some xs)
    else
      match splitExponent xs with
      | (m, e) => (x :: m, e)

/-- Signed integer exponent of a float literal. -/
def parseExponent (t : List Char) : Option Int :=
  let sd := pySign t
  if sd.2 ≠ [] ∧ sd.2.all Char.isDigit then
    some (sd.1 * (digitsToNat sd.2 : Int))
  else none

/-- Scale a rational by a signed power of ten. -/
def scalePow10 (q : ℚ) (e : Int) : ℚ :=
  if 0 ≤ e then q * (10 : ℚ) ^ e.toNat else q / (10 : ℚ) ^ (-e).toNat

/-- Python float(str): optional surrounding whitespace, optional sign,
decimal mantissa, optional exponent part. -/
def pyFloat (s : List Char) : Except PyErr ℚ :=
  let sd := pySign (pyStrip s)
  let me := splitExponent sd.2
  let value : Option ℚ :=
    match parseMantissa me.1, me.2 with
    | some m, none => some m
    | some m, some es =>
      match parseExponent es with
      | some e => some (scalePow10 m e)
      | none => none
    | none, _ => none
  match value with
  | some q => .ok ((sd.1 : ℚ) * q)
  | none => .error (.valueError "could not convert string to float")

/-- Python dict assignment d[k] = v: update in place when the key exists,
append otherwise (CPython dicts preserve insertion order). -/
def pyDictSet {α β : Type} [DecidableEq α] (d : List (α × β)) (k : α) (v : β) : List (α × β) :=
  match d with
  | [] => [(k, v)]
  | (k1, v1) :: rest =>
    if k1 = k then (k1, v) :: rest else (k1, v1) :: pyDictSet rest k v

/-- Build a Python dict from a pair list, later assignments overwriting. -/
def pyDictOfList {α β : Type} [DecidableEq α] (l : List (α × β)) : List (α × β) :=
  l.foldl (fun d p => pyDictSet d p.1 p.2) []

/-- Python dict lookup d[k]: KeyError when absent. -/
def pyDictLookup {α β : Type} [DecidableEq α] (d : List (α × β)) (k : α) : Except PyErr β :=
  match d with
  | [] => .error .keyError
  | (k1, v1) :: rest => if k1 = k then .ok v1 else pyDictLookup rest k

/-- Deduplication keeping the first appearance of each element; models
set(row) iteration order, see the conventions above. -/
def dedupFirst {α : Type} [DecidableEq α] : List α → List α
  | [] => []
  | a :: as => a :: (dedupFirst as).filter (fun b => b ≠ a)

/-- Pair every element with its index starting from i; models Python
enumerate with the components swapped, as in the dict comprehensions of
the source. -/
def enumFrom {α : Type} (i : Nat) : List α → List (α × Nat)
  | [] => []
  | a :: as => (a, i) :: enumFrom (i + 1) as

/-- split_keyval (slimfile.py lines 17-21): key, val = keyval.split('=')
unpacks exactly two pieces, so a token with zero or two or more '='
characters raises ValueError; an alphabetic key keeps the value as text,
any other key converts it with float(). -/
def split_keyval (keyval : List Char) : Except PyErr (List Char × PyVal) :=
  match splitOnChar '=' keyval with
  | [k, v] =>
    if pyIsAlpha k then .ok (k, .str v)
    else
      match pyFloat v with
      | .ok q => .ok (k, .num q)
      | .error e => .error e
  | _ => .error (.valueError "values to unpack")

/-- parse_params (slimfile.py lines 23-25): split the parameter string on
semicolons and build a dict from the key-value pairs. -/
def parse_params (param_str : List Char) : Except PyErr (List (List Char × PyVal)) :=
  match mapME split_keyval (splitOnChar ';' param_str) with
  | .error e => .error e
  | .ok kvs => .ok (pyDictOfList kvs)

/-- Loop state of parse_slim_ragged_freqs (slimfile.py lines 52-57):
muts dict, coordinate lists row, col, data, first_gen, gens, positions. -/
structure RagAcc where
  muts : List (Int × Int)
  row : List Int
  col : List Int
  data : List ℚ
  firstGen : Option Int
  gens : List Int
  positions : List Int
  deriving DecidableEq, Repr

/-- Initial loop state of parse_slim_ragged_freqs. -/
def ragInit : RagAcc :=
  { muts := [], row := [], col := [], data := [], firstGen := none,
    gens := [], positions := [] }

/-- Body of the inner loop of parse_slim_ragged_freqs (lines 68-75): split
one id;pos;freq token, convert the three fields, record the position, and
append one sparse coordinate entry (gen minus first_gen, source id, freq). -/
def processTriple (gen firstGen : Int) (acc : RagAcc) (tok : List Char) :
    Except PyErr RagAcc :=
  let mfs := splitOnChar ';' tok
  match pyIndex mfs 0 with
  | .error e => .error e
  | .ok midS =>
  match pyInt midS with
  | .error e => .error e
  | .ok mid =>
  match pyIndex mfs 1 with
  | .error e => .error e
  | .ok posS =>
  match pyInt posS with
  | .error e => .error e
  | .ok pos =>
  match pyIndex mfs 2 with
  | .error e => .error e
  | .ok freqS =>
  match pyFloat freqS with
  | .error e => .error e
  | .ok freq =>
    .ok { acc with
          muts := pyDictSet acc.muts mid pos,
          positions := acc.positions ++ [pos],
          row := acc.row ++ [gen - firstGen],
          col := acc.col ++ [mid],
          data := acc.data ++ [freq] }

/-- Body of the outer loop of parse_slim_ragged_freqs (lines 62-75): strip
and split the line, parse the leading generation, append it to gens, set
first_gen on the first line, then fold the id;pos;freq tokens. -/
def processLine (delim : Char) (acc : RagAcc) (line : List Char) :
    Except PyErr RagAcc :=
  let fields := splitOnChar delim (pyStrip line)
  match pyIndex fields 0 with
  | .error e => .error e
  | .ok genS =>
  match pyInt genS with
  | .error e => .error e
  | .ok gen =>
    let fg := acc.firstGen.getD gen
    foldlME (processTriple gen fg)
      { acc with gens := acc.gens ++ [gen], firstGen := some fg }
      (fields.drop 1)

/-- scipy coo_matrix((data, (row, col)), shape=(r, c)).toarray(): checks
the three coordinate lists have one length and all indices fall inside the
shape, then materialises a dense r-by-c array, summing entries that land
on the same cell. -/
def cooToDense (r c : Nat) (row col : List Nat) (data : List ℚ) :
    Except PyErr (List (List ℚ)) :=
  if row.length = col.length ∧ col.length = data.length then
    let entries := row.zip (col.zip data)
    if entries.all (fun e => e.1 < r ∧ e.2.1 < c) then
      .ok ((List.range r).map (fun i =>
        (List.range c).map (fun j =>
          ((entries.filter (fun e => e.1 = i ∧ e.2.1 = j)).map
            (fun e => e.2.2)).sum)))
    else .error (.valueError "coordinates exceed matrix dimensions")
  else .error (.valueError "inconsistent coordinate array lengths")

/-- SlimFreqs namedtuple (slimfile.py lines 13-14) for the ragged path:
params, positions, samples (the raw per-line generations), freqs (dense
matrix), times (the timepoints dict). -/
structure SlimFreqsRagged where
  params : List (List Char × PyVal)
  positions : List Int
  samples : List Int
  freqs : List (List ℚ)
  times : List (Int × Nat)
  deriving DecidableEq, Repr

/-- Field tuple of the SlimFreqs namedtuple (slimfile.py lines 13-14). -/
def slimFreqsFields : List String :=
  ["params", "positions", "samples", "freqs", "times"]

/-- Constructing SlimFreqs with five positional arguments (line 89):
succeeds because the namedtuple declares five fields. -/
def mkSlimFreqs5 (p : List (List Char × PyVal)) (pos : List Int)
    (samp : List Int) (fr : List (List ℚ)) (tm : List (Int × Nat)) :
    Except PyErr SlimFreqsRagged :=
  if 5 = slimFreqsFields.length then .ok ⟨p, pos, samp, fr, tm⟩
  else .error (.typeError "SlimFreqs argument count off")

/-- parse_slim_ragged_freqs (slimfile.py lines 44-92): parse the header
into params, stream the data lines accumulating sparse coordinates, remap
generation offsets through the timepoints dict built from set(row), remap
source ids through key_map built from the muts dict keys, assert the
coordinate lists are equally long, and materialise the dense matrix with
shape (len(gens), len(new_col)). -/
def parse_slim_ragged_freqs (lines : List (List Char)) (delim : Char := '\t') :
    Except PyErr SlimFreqsRagged :=
  match lines with
  | [] => .error .stopIteration
  | line0 :: rest =>
    match parse_params (line0.drop 1) with
    | .error e => .error e
    | .ok params =>
    match foldlME (processLine delim) ragInit rest with
    | .error e => .error e
    | .ok acc =>
      let timepoints := enumFrom 0 (dedupFirst acc.row)
      match mapME (fun t => pyDictLookup timepoints t) acc.row with
      | .error e => .error e
      | .ok row2 =>
        let key_map := enumFrom 0 (acc.muts.map Prod.fst)
        match mapME (fun mid => pyDictLookup key_map mid) acc.col with
        | .error e => .error e
        | .ok new_col =>
          if new_col.length = row2.length ∧ row2.length = acc.data.length then
            match cooToDense acc.gens.length new_col.length row2 new_col acc.data with
            | .error e => .error e
            | .ok freqs =>
              mkSlimFreqs5 params acc.positions acc.gens freqs timepoints
          else .error .assertionError

/-- Python next(fp) on line i of the file: StopIteration past the end. -/
def pyNext {α : Type} (l : List α) (i : Nat) : Except PyErr α :=
  match l.get? i with
  | some a => .ok a
  | none => .error .stopIteration

/-- numpy conversion of one header token to dtype u4 (line 112): an
integer literal that must fit in an unsigned 32-bit value. -/
def parseU4 (s : List Char) : Except PyErr Nat :=
  match pyInt s with
  | .error e => .error e
  | .ok n =>
    if 0 ≤ n ∧ n < 2 ^ 32 then .ok n.toNat
    else .error (.valueError "unsigned conversion out of bounds")

/-- np.loadtxt(fp, delimiter=delim, dtype=float64) over the remaining
lines (line 129): comment text from the first hash on is dropped, blank
lines are skipped, every remaining line is split on the delimiter and
converted with float(), and all rows must have one width. -/
def loadtxt (delim : Char) (ls : List (List Char)) : Except PyErr (List (List ℚ)) :=
  let datalines :=
    (ls.map (fun l => pyStrip (l.takeWhile (fun c => c ≠ '#')))).filter
      (fun l => l ≠ [])
  match mapME (fun l => mapME pyFloat (splitOnChar delim l)) datalines with
  | .error e => .error e
  | .ok rows =>
    match rows with
    | [] => .ok []
    | r0 :: rest =>
      if rest.all (fun r => r.length = r0.length) then .ok (r0 :: rest)
      else .error (.valueError "Wrong number of columns")

/-- Python int() or astype truncation of a float: toward zero. -/
def truncQ (q : ℚ) : Int :=
  if q < 0 then -((-q).floor) else q.floor

/-- Wrap an integer into the signed 32-bit range, as astype(i4) does. -/
def wrap32 (n : Int) : Int :=
  (n + 2 ^ 31) % 2 ^ 32 - 2 ^ 31

/-- astype(i4) applied to one float64 entry (line 131). -/
def toI4 (q : ℚ) : Int :=
  wrap32 (truncQ q)

/-- Count of non-missing entries in column j, as logical_not(isnan).sum(0)
computes it (line 138); the missing marker np.nan is modelled as none. -/
def colCount (m : List (List (Option ℚ))) (j : Nat) : Nat :=
  (m.filterMap (fun r => r.get? j)).countP (fun o => o.isSome)

/-- numpy boolean-mask indexing a[keep] (lines 143-144): the mask must
have the length of the indexed axis. -/
def applyMask {α : Type} (l : List α) (keep : List Bool) : Except PyErr (List α) :=
  if l.length = keep.length then
    .ok (((l.zip keep).filter (fun p => p.2)).map (fun p => p.1))
  else .error (.indexError "boolean index did not match indexed array")

/-- The four components parse_slim_freqs passes to SlimFreqs (line 145):
params, the kept loci, the per-row sample indices, and the pruned matrix
with none marking missing entries. -/
structure SlimFreqsDense where
  params : List (List Char × PyVal)
  positions : List Nat
  samples : List Int
  freqs : List (List (Option ℚ))
  deriving DecidableEq, Repr

/-- Constructing SlimFreqs with four positional arguments (line 145):
the namedtuple declares five fields, so the call raises TypeError. -/
def mkSlimFreqs4 (p : List (List Char × PyVal)) (loci : List Nat)
    (samp : List Int) (m : List (List (Option ℚ))) :
    Except PyErr SlimFreqsDense :=
  if 4 = slimFreqsFields.length then .ok ⟨p, loci, samp, m⟩
  else .error (.typeError "SlimFreqs missing 1 required positional argument: times")

/-- parse_slim_freqs (slimfile.py lines 95-145) with the default missing
value np.nan modelled as none: skip the first line, take the locus header,
convert it to u4, compute the unused width, check the hash marker on the
stripped first line, parse params, load the numeric block, split off the
sample column with i4 truncation, replace negative entries by the missing
marker, prune columns whose non-missing count does not exceed
int(min_prop_samples * rows), and construct the result tuple.  numpy
squeezes a single-row, single-column or empty block to one dimension, on
which the column slice mat[:, 0] raises IndexError. -/
def parse_slim_freqs (lines : List (List Char)) (delim : Char := '\t')
    (min_prop_samples : ℚ := 0) : Except PyErr SlimFreqsDense :=
  match pyNext lines 0 with
  | .error e => .error e
  | .ok l0 =>
  match pyNext lines 1 with
  | .error e => .error e
  | .ok l1 =>
    let header := splitOnChar delim (pyStrip l1)
    match mapME parseU4 (header.drop 1) with
    | .error e => .error e
    | .ok loci =>
      let _width := (splitOnChar delim (pyStrip ((lines.get? 2).getD []))).length
      let line := pyStrip l0
      if pyStartsWith '#' line then
        match parse_params (line.drop 1) with
        | .error e => .error e
        | .ok params =>
        match loadtxt delim (lines.drop 2) with
        | .error e => .error e
        | .ok mat =>
          if mat.length ≤ 1 ∨ (mat.headD []).length ≤ 1 then
            .error (.indexError "too many indices for array")
          else
            let samples := mat.map (fun r => toI4 (r.headD 0))
            let mat1 := mat.map (fun r => r.drop 1)
            let mat2 := mat1.map (fun r =>
              r.map (fun q => if q < 0 then none else some q))
            let min_nsamples := truncQ (min_prop_samples * (mat2.length : ℚ))
            let ncols := (mat1.headD []).length
            let keep := (List.range ncols).map
              (fun j => decide (min_nsamples < (colCount mat2 j : Int)))
            match mapME (fun r => applyMask r keep) mat2 with
            | .error e => .error e
            | .ok mat3 =>
            match applyMask loci keep with
            | .error e => .error e
            | .ok loci2 => mkSlimFreqs4 params loci2 samples mat3
      else
        .error (.valueError "error: SLiM results file does not begin with #-prefixed string containing parameters.")

/-- Python str.rfind for one character: index of the last occurrence,
minus one when absent. -/
def rfindChar (c : Char) : List Char → Int
  | [] => -1
  | x :: xs =>
    let r := rfindChar c xs
    if 0 ≤ r then r + 1 else if x = c then 0 else -1

/-- os.path.splitext on a posix path: split at the last dot when it lies
after the last slash and the basename has a non-dot character before it
(leading dots of the basename never start an extension). -/
def splitext (p : List Char) : List Char × List Char :=
  let sepIndex := rfindChar '/' p
  let dotIndex := rfindChar '.' p
  if sepIndex < dotIndex then
    let base := (p.drop (sepIndex + 1).toNat).take (dotIndex - sepIndex - 1).toNat
    if base.any (fun ch => ch ≠ '.') then
      (p.take dotIndex.toNat, p.drop dotIndex.toNat)
    else (p, [])
  else (p, [])

/-- Recursive worker for Python str.replace with a nonempty pattern:
replace leftmost non-overlapping occurrences, scanning left to right.
The fuel argument makes the recursion structural; it is always called
with fuel at least the length of the string, which the recursion
preserves because a match consumes at least one character. -/
def pyReplaceGo (p : Char) (ps : List Char) (new : List Char) :
    Nat → List Char → List Char
  | _, [] => []
  | 0, s => s
  | fuel + 1, c :: rest =>
    if (p :: ps).isPrefixOf (c :: rest) then
      new ++ pyReplaceGo p ps new fuel (rest.drop ps.length)
    else
      c :: pyReplaceGo p ps new fuel rest

/-- Python str.replace(old, new): every non-overlapping occurrence of old
is replaced; an empty old inserts new before every character and at the
end. -/
def pyReplace (s old new : List Char) : List Char :=
  match old with
  | [] => new ++ (s.map (fun c => c :: new)).flatten
  | p :: ps => pyReplaceGo p ps new s.length s

/-- output_filename (slimfile.py lines 148-150): take the extension of the
input path with splitext and replace it, everywhere it occurs in the path,
by a dash, the suffix and the new extension. -/
def output_filename (input_filename suffix : List Char)
    (ext : List Char := ".tsv".toList) : List Char :=
  let inext := (splitext input_filename).2
  pyReplace input_filename inext ('-' :: (suffix ++ ext))

theorem foldlME_inv {σ α : Type} (P : σ → Prop) (f : σ → α → Except PyErr σ)
    (hf : ∀ s a s2, P s → f s a = .ok s2 → P s2) :
    ∀ (l : List α) (s s2 : σ), foldlME f s l = .ok s2 → P s → P s2 := by
  intro l
  induction l with
  | nil =>
    intro s s2 h hs
    simp only [foldlME] at h
    cases h
    exact hs
  | cons a as ih =>
    intro s s2 h hs
    simp only [foldlME] at h
    split at h
    · exact Except.noConfusion h
    · next s1 heq => exact ih s1 s2 h (hf s a s1 hs heq)

theorem mapME_ok_length {α β : Type} (f : α → Except PyErr β) :
    ∀ (l : List α) (r : List β), mapME f l = .ok r → r.length = l.length := by
  intro l
  induction l with
  | nil =>
    intro r h
    simp only [mapME] at h
    cases h
    rfl
  | cons a as ih =>
    intro r h
    simp only [mapME] at h
    split at h
    · exact Except.noConfusion h
    · split at h
      · exact Except.noConfusion h
      · next bs heq =>
        cases h
        simp only [List.length_cons, ih bs heq]

theorem mapME_error {α β : Type} (f : α → Except PyErr β) :
    ∀ (l : List α) (e : PyErr), mapME f l = .error e → ∃ a, a ∈ l ∧ f a = .error e := by
  intro l
  induction l with
  | nil =>
    intro e h
    simp only [mapME] at h
    exact Except.noConfusion h
  | cons a as ih =>
    intro e h
    simp only [mapME] at h
    split at h
    · next heq =>
      cases h
      exact ⟨a, List.mem_cons_self a as, heq⟩
    · split at h
      · next heq =>
        cases h
        obtain ⟨b, hb, hfb⟩ := ih _ heq
        exact ⟨b, List.mem_cons_of_mem a hb, hfb⟩
      · exact Except.noConfusion h

theorem foldlME_error {σ α : Type} (f : σ → α → Except PyErr σ) :
    ∀ (l : List α) (s : σ) (e : PyErr), foldlME f s l = .error e →
      ∃ s1 a, a ∈ l ∧ f s1 a = .error e := by
  intro l
  induction l with
  | nil =>
    intro s e h
    simp only [foldlME] at h
    exact Except.noConfusion h
  | cons a as ih =>
    intro s e h
    simp only [foldlME] at h
    split at h
    · next heq =>
      cases h
      exact ⟨s, a, List.mem_cons_self a as, heq⟩
    · next s1 heq =>
      obtain ⟨s2, b, hb, hfb⟩ := ih s1 e h
      exact ⟨s2, b, List.mem_cons_of_mem a hb, hfb⟩

theorem enumFrom_length {α : Type} : ∀ (i : Nat) (l : List α),
    (enumFrom i l).length = l.length := by
  intro i l
  induction l generalizing i with
  | nil => rfl
  | cons a as ih => simp only [enumFrom, List.length_cons, ih]

theorem enumFrom_map_fst {α : Type} : ∀ (i : Nat) (l : List α),
    (enumFrom i l).map Prod.fst = l := by
  intro i l
  induction l generalizing i with
  | nil => rfl
  | cons a as ih => simp only [enumFrom, List.map_cons, ih]

theorem enumFrom_map_snd {α : Type} : ∀ (i : Nat) (l : List α),
    (enumFrom i l).map Prod.snd = List.range' i l.length := by
  intro i l
  induction l generalizing i with
  | nil => rfl
  | cons a as ih => simp only [enumFrom, List.map_cons, ih, List.length_cons, List.range'_succ]

theorem dedupFirst_nodup {α : Type} [DecidableEq α] : ∀ l : List α, (dedupFirst l).Nodup := by
  intro l
  induction l with
  | nil => simp [dedupFirst]
  | cons a as ih =>
    simp only [dedupFirst, List.nodup_cons]
    constructor
    · intro hmem
      have := (List.mem_filter.mp hmem).2
      simp at this
    · exact List.Nodup.filter _ ih

theorem splitOnChar_ne_nil (c : Char) : ∀ s : List Char, splitOnChar c s ≠ [] := by
  intro s
  cases s with
  | nil => simp [splitOnChar]
  | cons x xs =>
    simp only [splitOnChar]
    split
    · split <;> simp
    · split <;> simp

theorem splitOnChar_sep_cons (c : Char) (v : List Char) :
    splitOnChar c (c :: v) = [] :: splitOnChar c v := by
  simp only [splitOnChar]
  split
  · next g gs heq => simp [heq]
  · next heq => exact absurd heq (splitOnChar_ne_nil c v)

theorem splitOnChar_append_sep (c : Char) :
    ∀ (k v : List Char), c ∉ k →
      splitOnChar c (k ++ c :: v) = k :: splitOnChar c v := by
  intro k
  induction k with
  | nil =>
    intro v _
    simpa using splitOnChar_sep_cons c v
  | cons x k ih =>
    intro v hc
    have hx : x ≠ c := fun h => hc (h ▸ List.mem_cons_self x k)
    have hk : c ∉ k := fun h => hc (List.mem_cons_of_mem x h)
    simp only [List.cons_append, splitOnChar, List.append_eq]
    rw [ih v hk]
    simp [hx]

theorem two_le_splitOnChar_length (c : Char) :
    ∀ v : List Char, c ∈ v → 2 ≤ (splitOnChar c v).length := by
  intro v
  induction v with
  | nil => intro h; cases h
  | cons x xs ih =>
    intro hm
    by_cases hx : x = c
    · subst hx
      rw [splitOnChar_sep_cons]
      have := List.length_pos.mpr (splitOnChar_ne_nil x xs)
      simp only [List.length_cons]
      omega
    · have hmem : c ∈ xs := by
        cases hm with
        | head => exact absurd rfl hx
        | tail _ h => exact h
      have h2 := ih hmem
      simp only [splitOnChar]
      split
      · next g gs heq =>
        rw [heq] at h2
        simp only [List.length_cons] at h2 ⊢
        rw [if_neg hx]
        simp only [List.length_cons]
        omega
      · next heq => exact absurd heq (splitOnChar_ne_nil c xs)

theorem pyIndex_error {α : Type} (l : List α) (i : Nat) (e : PyErr)
    (h : pyIndex l i = .error e) : e = .indexError "list index out of range" := by
  unfold pyIndex at h
  split at h
  · exact Except.noConfusion h
  · cases h; rfl

theorem pyInt_error (s : List Char) (e : PyErr) (h : pyInt s = .error e) :
    e = .valueError "invalid literal for int" := by
  simp only [pyInt] at h
  split at h
  · exact Except.noConfusion h
  · cases h; rfl

theorem pyFloat_error (s : List Char) (e : PyErr) (h : pyFloat s = .error e) :
    e = .valueError "could not convert string to float" := by
  simp only [pyFloat] at h
  split at h
  · exact Except.noConfusion h
  · cases h; rfl

theorem pyDictLookup_error {α β : Type} [DecidableEq α] :
    ∀ (d : List (α × β)) (k : α) (e : PyErr), pyDictLookup d k = .error e → e = .keyError := by
  intro d
  induction d with
  | nil =>
    intro k e h
    simp only [pyDictLookup] at h
    cases h; rfl
  | cons p rest ih =>
    intro k e h
    simp only [pyDictLookup] at h
    split at h
    · exact Except.noConfusion h
    · exact ih k e h

theorem split_keyval_error (kv : List Char) (e : PyErr) (h : split_keyval kv = .error e) :
    e = .valueError "values to unpack" ∨ e = .valueError "could not convert string to float" := by
  unfold split_keyval at h
  split at h
  · split at h
    · exact Except.noConfusion h
    · split at h
      · exact Except.noConfusion h
      · next heq =>
        cases h
        exact Or.inr (pyFloat_error _ _ heq)
  · cases h
    exact Or.inl rfl

theorem parse_params_error (s : List Char) (e : PyErr) (h : parse_params s = .error e) :
    e = .valueError "values to unpack" ∨ e = .valueError "could not convert string to float" := by
  unfold parse_params at h
  split at h
  · next heq =>
    cases h
    obtain ⟨a, _, ha⟩ := mapME_error _ _ _ heq
    exact split_keyval_error _ _ ha
  · exact Except.noConfusion h

/-- The coordinate lists and the position list of the scan state grow in
lock step: one entry per parsed triple. -/
def accLenInv (a : RagAcc) : Prop :=
  a.row.length = a.col.length ∧ a.col.length = a.data.length ∧
    a.data.length = a.positions.length

theorem processTriple_ok (gen fg : Int) (acc : RagAcc) (tok : List Char)
    (acc2 : RagAcc) (h : processTriple gen fg acc tok = .ok acc2) :
    acc2.gens = acc.gens ∧ (accLenInv acc → accLenInv acc2) := by
  simp only [processTriple] at h
  split at h
  · exact Except.noConfusion h
  split at h
  · exact Except.noConfusion h
  split at h
  · exact Except.noConfusion h
  split at h
  · exact Except.noConfusion h
  split at h
  · exact Except.noConfusion h
  split at h
  · exact Except.noConfusion h
  cases h
  refine ⟨rfl, ?_⟩
  intro hi
  obtain ⟨h1, h2, h3⟩ := hi
  refine ⟨?_, ?_, ?_⟩ <;> simp [h1, h2, h3]

theorem processTriple_error (gen fg : Int) (acc : RagAcc) (tok : List Char)
    (e : PyErr) (h : processTriple gen fg acc tok = .error e) :
    e ≠ .assertionError := by
  simp only [processTriple] at h
  split at h
  · next heq => cases h; rw [pyIndex_error _ _ _ heq]; simp
  split at h
  · next heq => cases h; rw [pyInt_error _ _ heq]; simp
  split at h
  · next heq => cases h; rw [pyIndex_error _ _ _ heq]; simp
  split at h
  · next heq => cases h; rw [pyInt_error _ _ heq]; simp
  split at h
  · next heq => cases h; rw [pyIndex_error _ _ _ heq]; simp
  split at h
  · next heq => cases h; rw [pyFloat_error _ _ heq]; simp
  exact Except.noConfusion h

theorem processLine_ok (delim : Char) (acc : RagAcc) (line : List Char)
    (acc2 : RagAcc) (h : processLine delim acc line = .ok acc2) :
    acc2.gens.length = acc.gens.length + 1 ∧ (accLenInv acc → accLenInv acc2) := by
  simp only [processLine] at h
  split at h
  · exact Except.noConfusion h
  split at h
  · exact Except.noConfusion h
  next gen _ =>
  have hinv := foldlME_inv
    (fun a => a.gens = acc.gens ++ [gen] ∧ (accLenInv acc → accLenInv a))
    (processTriple gen (acc.firstGen.getD gen))
    (fun s a s2 hs hok =>
      ⟨by rw [(processTriple_ok _ _ s a s2 hok).1]; exact hs.1,
       fun hi => (processTriple_ok _ _ s a s2 hok).2 (hs.2 hi)⟩)
    _ _ acc2 h ⟨rfl, fun hi => hi⟩
  exact ⟨by rw [hinv.1]; simp, hinv.2⟩

theorem processLine_error (delim : Char) (acc : RagAcc) (line : List Char)
    (e : PyErr) (h : processLine delim acc line = .error e) :
    e ≠ .assertionError := by
  simp only [processLine] at h
  split at h
  · next heq => cases h; rw [pyIndex_error _ _ _ heq]; simp
  split at h
  · next heq => cases h; rw [pyInt_error _ _ heq]; simp
  next gen _ =>
  obtain ⟨s1, a, _, ha⟩ := foldlME_error _ _ _ _ h
  exact processTriple_error _ _ _ _ _ ha

theorem linesFold_ok (delim : Char) :
    ∀ (ls : List (List Char)) (acc acc2 : RagAcc),
      foldlME (processLine delim) acc ls = .ok acc2 →
      acc2.gens.length = acc.gens.length + ls.length ∧
        (accLenInv acc → accLenInv acc2) := by
  intro ls
  induction ls with
  | nil =>
    intro acc acc2 h
    simp only [foldlME] at h
    cases h
    exact ⟨rfl, fun hi => hi⟩
  | cons l ls ih =>
    intro acc acc2 h
    simp only [foldlME] at h
    split at h
    · exact Except.noConfusion h
    · next acc1 heq =>
      have h1 := processLine_ok delim acc l acc1 heq
      have h2 := ih acc1 acc2 h
      refine ⟨?_, fun hi => h2.2 (h1.2 hi)⟩
      rw [h2.1, h1.1]
      simp only [List.length_cons]
      omega

theorem linesFold_error (delim : Char) :
    ∀ (ls : List (List Char)) (acc : RagAcc) (e : PyErr),
      foldlME (processLine delim) acc ls = .error e → e ≠ .assertionError := by
  intro ls acc e h
  obtain ⟨s1, a, _, ha⟩ := foldlME_error _ _ _ _ h
  exact processLine_error _ _ _ _ ha

theorem cooToDense_ok_shape (r c : Nat) (row col : List Nat) (data : List ℚ)
    (m : List (List ℚ)) (h : cooToDense r c row col data = .ok m) :
    m.length = r ∧ ∀ v ∈ m, v.length = c := by
  simp only [cooToDense] at h
  split at h
  · split at h
    · cases h
      constructor
      · simp
      · intro v hv
        obtain ⟨i, _, rfl⟩ := List.mem_map.mp hv
        simp
    · exact Except.noConfusion h
  · exact Except.noConfusion h

theorem cooToDense_error (r c : Nat) (row col : List Nat) (data : List ℚ)
    (e : PyErr) (h : cooToDense r c row col data = .error e) :
    e ≠ .assertionError := by
  simp only [cooToDense] at h
  split at h
  · split at h
    · exact Except.noConfusion h
    · cases h; simp
  · cases h; simp

theorem parse_ragged_ok (line0 : List Char) (rest : List (List Char)) (δ : Char)
    (r : SlimFreqsRagged) (h : parse_slim_ragged_freqs (line0 :: rest) δ = .ok r) :
    ∃ acc : RagAcc,
      foldlME (processLine δ) ragInit rest = .ok acc ∧
      r.positions = acc.positions ∧
      r.samples = acc.gens ∧
      r.times = enumFrom 0 (dedupFirst acc.row) ∧
      ∃ row2 new_col,
        mapME (fun t => pyDictLookup (enumFrom 0 (dedupFirst acc.row)) t) acc.row = .ok row2 ∧
        mapME (fun mid => pyDictLookup (enumFrom 0 (acc.muts.map Prod.fst)) mid) acc.col = .ok new_col ∧
        cooToDense acc.gens.length new_col.length row2 new_col acc.data = .ok r.freqs := by
  simp only [parse_slim_ragged_freqs] at h
  split at h
  · exact Except.noConfusion h
  · split at h
    · exact Except.noConfusion h
    · next acc heqfold =>
      split at h
      · exact Except.noConfusion h
      · next row2 heqrow =>
        split at h
        · exact Except.noConfusion h
        · next new_col heqcol =>
          split at h
          · split at h
            · exact Except.noConfusion h
            · next freqs heqcoo =>
              simp only [mkSlimFreqs5, slimFreqsFields] at h
              cases h
              exact ⟨acc, heqfold, rfl, rfl, rfl, row2, new_col, heqrow, heqcol, heqcoo⟩
          · exact Except.noConfusion h

/-- C10: in parse_slim_ragged_freqs the accumulated row, col and data
coordinate lists always have equal length (one entry per parsed triple),
so the assertion after id remapping never fails: no input makes the parser
return an AssertionError. -/
theorem ragged_assert_never_fails (lines : List (List Char)) (δ : Char) :
    parse_slim_ragged_freqs lines δ ≠ .error .assertionError := by
  intro h
  cases lines with
  | nil => simp only [parse_slim_ragged_freqs] at h; simp at h
  | cons line0 rest =>
    simp only [parse_slim_ragged_freqs] at h
    split at h
    · next e heq =>
      cases h
      rcases parse_params_error _ _ heq with h1 | h1 <;> exact PyErr.noConfusion h1
    · split at h
      · next e heq =>
        cases h
        exact linesFold_error δ rest ragInit _ heq rfl
      · next acc heqfold =>
        split at h
        · next e heq =>
          cases h
          obtain ⟨a, _, ha⟩ := mapME_error _ _ _ heq
          exact PyErr.noConfusion (pyDictLookup_error _ _ _ ha).symm
        · next row2 heqrow =>
          split at h
          · next e heq =>
            cases h
            obtain ⟨a, _, ha⟩ := mapME_error _ _ _ heq
            exact PyErr.noConfusion (pyDictLookup_error _ _ _ ha).symm
          · next new_col heqcol =>
            split at h
            · split at h
              · next e heqcoo =>
                cases h
                exact cooToDense_error _ _ _ _ _ _ heqcoo rfl
              · next freqs heqcoo =>
                simp only [mkSlimFreqs5, slimFreqsFields] at h
                simp at h
            · next hcond =>
              have hinv : accLenInv acc :=
                (linesFold_ok δ rest ragInit acc heqfold).2 ⟨rfl, rfl, rfl⟩
              have hr2 : row2.length = acc.row.length := mapME_ok_length _ _ _ heqrow
              have hnc : new_col.length = acc.col.length := mapME_ok_length _ _ _ heqcol
              obtain ⟨h1, h2, h3⟩ := hinv
              exact hcond ⟨by omega, by omega⟩

/-- C1 (amended): for every parsed ragged file the dense matrix has
exactly one row per data line (len(gens)) and one column per parsed
id;pos;freq triple (len(new_col), equal to the length of the returned
position list), not one per distinct generation or distinct id: the list
of row lengths equals rest.length copies of positions.length. -/
theorem ragged_matrix_shape (line0 : List Char) (rest : List (List Char)) (δ : Char)
    (r : SlimFreqsRagged) (h : parse_slim_ragged_freqs (line0 :: rest) δ = .ok r) :
    r.freqs.map List.length = List.replicate rest.length r.positions.length := by
  obtain ⟨acc, heqfold, hpos, _, _, row2, new_col, heqrow, heqcol, heqcoo⟩ :=
    parse_ragged_ok _ _ _ _ h
  have hfold := linesFold_ok δ rest ragInit acc heqfold
  obtain ⟨h1, h2, h3⟩ := hfold.2 ⟨rfl, rfl, rfl⟩
  have hshape := cooToDense_ok_shape _ _ _ _ _ _ heqcoo
  have hnc : new_col.length = acc.col.length := mapME_ok_length _ _ _ heqcol
  apply List.eq_replicate_iff.mpr
  constructor
  · rw [List.length_map, hshape.1, hfold.1]
    simp [ragInit]
  · intro b hb
    obtain ⟨v, hv, rfl⟩ := List.mem_map.mp hb
    rw [hshape.2 v hv, hpos]
    omega

/-- C3 (amended): the timepoints mapping of a parsed ragged file is a
bijection onto the dense indices 0..k-1: its values are exactly
List.range k in order and its keys (the distinct generation offsets, not
the original generation numbers) are pairwise distinct. -/
theorem ragged_times_bijection (lines : List (List Char)) (δ : Char)
    (r : SlimFreqsRagged) (h : parse_slim_ragged_freqs lines δ = .ok r) :
    r.times.map Prod.snd = List.range r.times.length ∧
      (r.times.map Prod.fst).Nodup := by
  cases lines with
  | nil => simp only [parse_slim_ragged_freqs] at h; exact Except.noConfusion h
  | cons line0 rest =>
    obtain ⟨acc, _, _, _, htimes, _⟩ := parse_ragged_ok _ _ _ _ h
    rw [htimes]
    constructor
    · rw [enumFrom_map_snd, enumFrom_length, List.range_eq_range']
    · rw [enumFrom_map_fst]
      exact dedupFirst_nodup _

/-- C4 (amended): a position is appended for every parsed triple, so the
returned position sequence has exactly the length of the matrix column
count (both equal the total number of triples), even when an id repeats:
every row length equals positions.length. -/
theorem ragged_positions_length (line0 : List Char) (rest : List (List Char)) (δ : Char)
    (r : SlimFreqsRagged) (h : parse_slim_ragged_freqs (line0 :: rest) δ = .ok r) :
    r.freqs.map List.length = List.replicate r.freqs.length r.positions.length := by
  obtain ⟨acc, heqfold, hpos, _, _, row2, new_col, heqrow, heqcol, heqcoo⟩ :=
    parse_ragged_ok _ _ _ _ h
  obtain ⟨h1, h2, h3⟩ := (linesFold_ok δ rest ragInit acc heqfold).2 ⟨rfl, rfl, rfl⟩
  have hshape := cooToDense_ok_shape _ _ _ _ _ _ heqcoo
  have hnc : new_col.length = acc.col.length := mapME_ok_length _ _ _ heqcol
  apply List.eq_replicate_iff.mpr
  constructor
  · rw [List.length_map]
  · intro b hb
    obtain ⟨v, hv, rfl⟩ := List.mem_map.mp hb
    rw [hshape.2 v hv, hpos]
    omega

/-- Header line of the worked ragged example. -/
def exRaggedHead : List Char := "#a=1".toList

/-- Data lines of the worked ragged example from the specification:
generation 1 with triples 10;5;0.2 and 11;7;0.4, then generation 2 with
triple 10;5;0.3. -/
def exRaggedTail : List (List Char) :=
  ["1\t10;5;0.2\t11;7;0.4".toList, "2\t10;5;0.3".toList]

/-- The worked ragged example file. -/
def exRagged : List (List Char) := exRaggedHead :: exRaggedTail

/-- The value parse_slim_ragged_freqs returns on the worked example. -/
def exRaggedResult : SlimFreqsRagged :=
  { params := [("a".toList, .str "1".toList)],
    positions := [5, 7, 5],
    samples := [1, 2],
    freqs := [[(0.2 : ℚ), 0.4, 0], [0.3, 0, 0]],
    times := [(0, 0), (1, 1)] }

/-- A ragged file whose two data lines carry the same generation and
repeat mutation id 10: one distinct generation, two distinct ids, but two
data lines and three triples. -/
def exRaggedDup : List (List Char) :=
  ["#a=1".toList, "1\t10;5;0.2\t11;7;0.4".toList, "1\t10;5;0.3".toList]

/-- A ragged file whose generations are 5 and 6, so that generation
numbers and generation offsets differ. -/
def exRaggedGen5 : List (List Char) :=
  ["#a=1".toList, "5\t10;5;0.2".toList, "6\t11;7;0.4".toList]

/-- A ragged file whose first line does not start with the hash marker. -/
def exNoHash : List (List Char) :=
  ["Xa=1".toList, "1\t10;5;0.2".toList]

/-- A well-formed dense frequency file: parameter header, locus header
row, and two rectangular numeric rows with one sentinel entry. -/
def exDense : List (List Char) :=
  ["#N=100;s=0.1".toList, "gen\t0\t1".toList, "0\t0.5\t-1".toList,
   "1\t0.6\t0.7".toList]

unseal Rat.add Rat.mul Rat.inv Rat.ofScientific in
/-- C1 counterexample: on exRaggedDup the claim predicts a matrix with one
row (one distinct generation) and two columns (two distinct ids), i.e.
row lengths [2]; the code returns two rows of three columns each. -/
theorem ragged_matrix_shape_counterexample :
    (parse_slim_ragged_freqs exRaggedDup '\t').map (fun r => r.freqs.map List.length) =
      .ok [3, 3] ∧
    ¬ (parse_slim_ragged_freqs exRaggedDup '\t').map (fun r => r.freqs.map List.length) =
      .ok [2] := by
  constructor
  · decide
  · decide

unseal Rat.add Rat.mul Rat.inv Rat.ofScientific in
/-- C1 witness: the amended shape theorem applied to the worked example. -/
theorem ragged_matrix_shape_witness :
    exRaggedResult.freqs.map List.length =
      List.replicate exRaggedTail.length exRaggedResult.positions.length :=
  ragged_matrix_shape exRaggedHead exRaggedTail '\t' exRaggedResult (by decide)

unseal Rat.add Rat.mul Rat.inv Rat.ofScientific in
/-- C2 counterexample: on the worked example the code does not return the
matrix [[0.2, 0.4], [0.3, 0.0]], positions [5, 7] and timepoints
mapping 1 to 0 and 2 to 1 that the claim states. -/
theorem ragged_example_counterexample :
    (parse_slim_ragged_freqs exRagged '\t').map (fun r => (r.freqs, r.positions, r.times)) ≠
      .ok ([[(0.2 : ℚ), 0.4], [0.3, 0]], [5, 7], [(1, 0), (2, 1)]) := by
  decide

unseal Rat.add Rat.mul Rat.inv Rat.ofScientific in
/-- C2 (amended): on the worked example the code returns the two-row,
three-column matrix [[0.2, 0.4, 0], [0.3, 0, 0]] (one column per triple),
positions [5, 7, 5] (one per triple) and the timepoints mapping sending
generation offset 0 to 0 and offset 1 to 1. -/
theorem ragged_example_actual :
    (parse_slim_ragged_freqs exRagged '\t').map (fun r => (r.freqs, r.positions, r.times)) =
      .ok ([[(0.2 : ℚ), 0.4, 0], [0.3, 0, 0]], [5, 7, 5], [(0, 0), (1, 1)]) := by
  decide

unseal Rat.add Rat.mul Rat.inv Rat.ofScientific in
/-- C3 counterexample: on exRaggedGen5 the generations in the file are 5
and 6, but the timepoints keys are the offsets 0 and 1; the original
generation 5 is not a key, contradicting the claim that the keys are
exactly the original generation numbers. -/
theorem ragged_times_counterexample :
    (parse_slim_ragged_freqs exRaggedGen5 '\t').map (fun r => r.times.map Prod.fst) =
      .ok [0, 1] ∧ ¬ (5 : Int) ∈ [(0 : Int), 1] := by
  constructor
  · decide
  · decide

unseal Rat.add Rat.mul Rat.inv Rat.ofScientific in
/-- C3 witness: the amended bijection theorem applied to the worked
example. -/
theorem ragged_times_bijection_witness :
    exRaggedResult.times.map Prod.snd = List.range exRaggedResult.times.length ∧
      (exRaggedResult.times.map Prod.fst).Nodup :=
  ragged_times_bijection exRagged '\t' exRaggedResult (by decide)

unseal Rat.add Rat.mul Rat.inv Rat.ofScientific in
/-- C4 counterexample: on the worked example id 10 is seen twice, and its
position is recorded twice: the returned position sequence is [5, 7, 5],
not the first-seen-only sequence [5, 7] the claim states. -/
theorem ragged_positions_counterexample :
    (parse_slim_ragged_freqs exRagged '\t').map (fun r => r.positions) ≠ .ok [5, 7] := by
  decide

unseal Rat.add Rat.mul Rat.inv Rat.ofScientific in
/-- C4 witness: the amended position-length theorem applied to the worked
example. -/
theorem ragged_positions_length_witness :
    exRaggedResult.freqs.map List.length =
      List.replicate exRaggedResult.freqs.length exRaggedResult.positions.length :=
  ragged_positions_length exRaggedHead exRaggedTail '\t' exRaggedResult (by decide)

unseal Rat.add Rat.mul Rat.inv Rat.ofScientific in
/-- C5: on a well-formed dense input file parse_slim_freqs does not
return a result: the final construction passes four positional arguments
to the five-field SlimFreqs namedtuple and raises TypeError. -/
theorem dense_parse_always_typeerror :
    parse_slim_freqs exDense '\t' 0 =
      .error (.typeError "SlimFreqs missing 1 required positional argument: times") := by
  decide

/-- C6 counterexample: the header mu=abc;N=1000 parses without error,
because both keys are alphabetic and alphabetic keys keep their values as
text; the claim states this header raises. -/
theorem params_mu_abc_succeeds :
    parse_params "mu=abc;N=1000".toList =
      .ok [("mu".toList, .str "abc".toList), ("N".toList, .str "1000".toList)] := by
  decide

/-- C6 (amended): a non-alphabetic key whose value is not numeric does
fail: mu2=abc;N=1000 raises ValueError from float conversion. -/
theorem params_nonalpha_nonnumeric_fails :
    parse_params "mu2=abc;N=1000".toList =
      .error (.valueError "could not convert string to float") := by
  decide

unseal Rat.add Rat.mul Rat.inv Rat.ofScientific in
/-- C8 counterexample: the ragged parser performs no marker check; on a
file whose first line starts with X instead of the hash it strips the
first character, parses the rest as parameters, and succeeds. -/
theorem ragged_no_marker_counterexample :
    exceptIsOk (parse_slim_ragged_freqs exNoHash '\t') = true := by
  decide

/-- C10 witness: the never-asserts theorem applied to the worked example. -/
theorem ragged_assert_never_fails_witness :
    parse_slim_ragged_freqs exRagged '\t' ≠ .error .assertionError :=
  ragged_assert_never_fails exRagged '\t'

/-- C7 counterexample: the token a=b=c has a well-formed key and a value
containing a further equals sign; the claim states it parses with value
b=c, but str.split has no maxsplit here, the token splits into three
pieces, and unpacking them into two names raises ValueError. -/
theorem keyval_split_counterexample :
    split_keyval "a=b=c".toList = .error (.valueError "values to unpack") := by
  decide

/-- C7 (amended): split_keyval splits on every equals sign, so any token
whose value contains an equals sign fails to parse, whatever its key. -/
theorem keyval_value_with_eq_fails (k v : List Char) (hk : '=' ∉ k) (hv : '=' ∈ v) :
    exceptIsOk (split_keyval (k ++ '=' :: v)) = false := by
  have hsplit := splitOnChar_append_sep '=' k v hk
  have hlen := two_le_splitOnChar_length '=' v hv
  unfold split_keyval
  rw [hsplit]
  match h2 : splitOnChar '=' v with
  | [] => rw [h2] at hlen; simp at hlen
  | [a] => rw [h2] at hlen; simp at hlen
  | a :: b :: t => rfl

/-- C7 witness: the amended theorem applied to key a and value b=c. -/
theorem keyval_value_with_eq_fails_witness :
    exceptIsOk (split_keyval ("a".toList ++ '=' :: "b=c".toList)) = false :=
  keyval_value_with_eq_fails "a".toList "b=c".toList (by decide) (by decide)

/-- C8 (amended): the dense parser does validate the marker: for every
file whose stripped first line does not start with the hash, it returns
an error before reading the numeric block (the ragged parser performs no
such check, see the counterexample). -/
theorem dense_requires_marker (l0 : List Char) (rest : List (List Char)) (δ : Char)
    (mps : ℚ) (h : pyStartsWith '#' (pyStrip l0) = false) :
    exceptIsOk (parse_slim_freqs (l0 :: rest) δ mps) = false := by
  cases rest with
  | nil => rfl
  | cons l1 rest2 =>
    simp only [parse_slim_freqs, pyNext, List.get?]
    split
    · rfl
    · rw [h]
      rfl

/-- C8 witness: the dense marker theorem applied to a file whose header
lacks the hash. -/
theorem dense_requires_marker_witness :
    exceptIsOk (parse_slim_freqs ("N=100;s=0.1".toList ::
      ["gen\t0\t1".toList, "0\t0.5\t-1".toList, "1\t0.6\t0.7".toList]) '\t' 0) = false :=
  dense_requires_marker "N=100;s=0.1".toList
    ["gen\t0\t1".toList, "0\t0.5\t-1".toList, "1\t0.6\t0.7".toList] '\t' 0 (by decide)

/-- The pattern pat occurs in s at index i. -/
def occursAt (s pat : List Char) (i : Nat) : Prop :=
  (s.drop i).take pat.length = pat

instance (s pat : List Char) (i : Nat) : Decidable (occursAt s pat i) :=
  inferInstanceAs (Decidable ((s.drop i).take pat.length = pat))

theorem isPrefixOf_self : ∀ l : List Char, l.isPrefixOf l = true := by
  intro l
  induction l with
  | nil => rfl
  | cons a as ih => simp [List.isPrefixOf, ih]

theorem isPrefixOf_iff_take :
    ∀ (pat s : List Char), pat.isPrefixOf s = true ↔ s.take pat.length = pat := by
  intro pat
  induction pat with
  | nil => intro s; simp [List.isPrefixOf]
  | cons a as ih =>
    intro s
    cases s with
    | nil => simp [List.isPrefixOf]
    | cons b bs =>
      simp only [List.isPrefixOf, List.length_cons, List.take_succ_cons,
        Bool.and_eq_true, beq_iff_eq, List.cons.injEq, ih]
      constructor
      · intro h; exact ⟨h.1.symm, h.2⟩
      · intro h; exact ⟨h.1.symm, h.2⟩

theorem pyReplaceGo_unique (p : Char) (ps new : List Char) :
    ∀ (pre : List Char) (fuel : Nat), (pre ++ p :: ps).length ≤ fuel →
      (∀ i, i < pre.length → ¬ occursAt (pre ++ p :: ps) (p :: ps) i) →
      pyReplaceGo p ps new fuel (pre ++ p :: ps) = pre ++ new := by
  intro pre
  induction pre with
  | nil =>
    intro fuel hf _
    cases fuel with
    | zero => simp at hf
    | succ f =>
      simp only [List.nil_append, pyReplaceGo, isPrefixOf_self, if_true,
        List.drop_length]
      simp [pyReplaceGo]
  | cons c pre ih =>
    intro fuel hf hocc
    cases fuel with
    | zero => simp at hf
    | succ f =>
      have hnotpref : (p :: ps).isPrefixOf (c :: (pre ++ p :: ps)) = false := by
        cases hb : (p :: ps).isPrefixOf (c :: (pre ++ p :: ps)) with
        | false => rfl
        | true =>
          exfalso
          apply hocc 0 (by simp)
          have := (isPrefixOf_iff_take _ _).mp hb
          simpa [occursAt] using this
      simp only [List.cons_append, pyReplaceGo, List.append_eq, hnotpref, if_false]
      rw [ih f (by simp at hf ⊢; omega) (fun i hi => by
        have := hocc (i + 1) (by simp only [List.length_cons]; omega)
        simpa [occursAt, List.cons_append, List.drop_succ_cons] using this)]
      simp

theorem splitext_append (p a b : List Char) (h : splitext p = (a, b)) :
    a ++ b = p := by
  simp only [splitext] at h
  split at h
  · split at h
    · cases h
      exact List.take_append_drop _ _
    · cases h
      exact List.append_nil _
  · cases h
    exact List.append_nil _

/-- C9 counterexample: for input a.txt.txt with suffix cov the final
extension .txt occurs twice, str.replace substitutes both occurrences,
and the result is a-cov.tsv-cov.tsv rather than the claimed a.txt-cov.tsv
with only the final extension replaced. -/
theorem output_filename_counterexample :
    output_filename "a.txt.txt".toList "cov".toList = "a-cov.tsv-cov.tsv".toList ∧
      output_filename "a.txt.txt".toList "cov".toList ≠ "a.txt-cov.tsv".toList := by
  constructor
  · decide
  · decide

/-- C9 (amended): output_filename replaces every occurrence of the final
extension; when the extension substring occurs nowhere before its final
position, the result is the stem followed by the dash, the suffix and the
new extension. -/
theorem output_filename_single_occurrence (path suffix ext stem iext : List Char)
    (hs : splitext path = (stem, iext)) (hne : iext ≠ [])
    (hu : ∀ i, i < stem.length → ¬ occursAt path iext i) :
    output_filename path suffix ext = stem ++ '-' :: (suffix ++ ext) := by
  have hcat := splitext_append path stem iext hs
  cases iext with
  | nil => exact absurd rfl hne
  | cons q qs =>
    subst hcat
    simp only [output_filename, hs]
    unfold pyReplace
    exact pyReplaceGo_unique q qs ('-' :: (suffix ++ ext)) stem
      (stem ++ q :: qs).length (le_refl _) hu

/-- C9 witness: the amended theorem applied to run.txt with suffix freq. -/
theorem output_filename_single_occurrence_witness :
    output_filename "run.txt".toList "freq".toList ".tsv".toList =
      "run".toList ++ '-' :: ("freq".toList ++ ".tsv".toList) :=
  output_filename_single_occurrence "run.txt".toList "freq".toList ".tsv".toList
    "run".toList ".txt".toList (by decide) (by decide) (by decide)
